import Mathlib

/-!
Verification of the scraping/download core of GST-GamesSoundTrack (src/app.py)
against its natural-language specification.

The Python source is shallowly embedded: pure helpers become Lean functions on
`String`/`List`; the stateful download worker becomes a function from an
explicit environment (album lookup result, per-track success oracle, position
of an eventual cancellation request) to the final session record, the returned
boolean, the list of tracks actually attempted, and the trace of all writes to
the progress registry.  Python strings are modelled by Lean `String` via their
character lists; `str.strip`, `str.startswith`, `str.endswith` and the `in`
substring test are re-implemented on character lists rather than through Lean's
`Substring`-based primitives so that they can be reasoned about directly.
`str.isalnum` is modelled by `Char.isAlphanum` (exact on the ASCII range, which
is the range exercised by every concrete input below).
-/

namespace GST

/- ### Python string primitives -/

/-- Python `s.startswith(p)`: `p.data` is a prefix of `s.data`. -/
def startsWithS (s p : String) : Bool :=
  List.isPrefixOf p.data s.data

/-- Python `s.endswith(p)`: `p.data` is a suffix of `s.data`. -/
def endsWithS (s p : String) : Bool :=
  List.isSuffixOf p.data s.data

/-- Helper for the Python substring test: does `l` contain `pat` as a
contiguous sublist? -/
def hasInfix (pat : List Char) : List Char → Bool
  | [] => List.isPrefixOf pat []
  | c :: cs => List.isPrefixOf pat (c :: cs) || hasInfix pat cs

/-- Python `pat in s` (substring containment). -/
def containsS (s pat : String) : Bool :=
  hasInfix pat.data s.data

/-- Python `s.strip()`: drop leading and trailing whitespace. -/
def pyStrip (s : String) : String :=
  String.mk (((s.data.dropWhile Char.isWhitespace).reverse.dropWhile
      Char.isWhitespace).reverse)

/-- Python `s.lower()` (ASCII lowering, matching the hrefs handled here). -/
def lowerS (s : String) : String :=
  String.mk (s.data.map Char.toLower)

/- ### Facts about the decimal representation `Nat.repr`
(`f"...{n}"` and `str(n)` in the Python source). -/

/-- Decimal value of a digit-character list, with accumulator, used to invert
`Nat.toDigitsCore`. -/
def valFrom (a : Nat) (l : List Char) : Nat :=
  l.foldl (fun acc c => acc * 10 + (c.toNat - 48)) a

/-- The effect of writing the digits of `n` after an accumulated value `a`. -/
def pushDigits (a n : Nat) : Nat :=
  if n < 10 then a * 10 + n
  else pushDigits a (n / 10) * 10 + n % 10
termination_by n
decreasing_by exact Nat.div_lt_self (by omega) (by omega)

theorem pushDigits_zero (n : Nat) : pushDigits 0 n = n := by
  induction n using Nat.strong_induction_on with
  | _ n ih =>
    rw [pushDigits]
    by_cases h : n < 10
    · simp [h]
    · simp only [h, if_false]
      rw [ih (n / 10) (Nat.div_lt_self (by omega) (by omega))]
      omega

theorem digitChar_toNat {m : Nat} (h : m < 10) :
    (Nat.digitChar m).toNat = 48 + m := by
  interval_cases m <;> rfl

theorem valFrom_toDigitsCore {fuel : Nat} : ∀ {n : Nat}, n < fuel →
    ∀ (a : Nat) (ds : List Char),
    valFrom a (Nat.toDigitsCore 10 fuel n ds) = valFrom (pushDigits a n) ds := by
  induction fuel with
  | zero => intro n h; omega
  | succ f ih =>
    intro n h a ds
    rw [Nat.toDigitsCore]
    by_cases h0 : n / 10 = 0
    · have hn : n < 10 := by omega
      simp only [h0, if_true]
      show valFrom (a * 10 + ((Nat.digitChar (n % 10)).toNat - 48)) ds = _
      rw [digitChar_toNat (Nat.mod_lt _ (by omega))]
      rw [pushDigits]
      simp [hn]
      congr 1
      omega
    · simp only [h0, if_false]
      have hlt : n / 10 < f := by
        have : n / 10 < n := Nat.div_lt_self (by omega) (by omega)
        omega
      rw [ih hlt]
      show valFrom (pushDigits a (n / 10) * 10 + ((Nat.digitChar (n % 10)).toNat - 48)) ds = _
      rw [digitChar_toNat (Nat.mod_lt _ (by omega))]
      conv_rhs => rw [pushDigits]
      by_cases h10 : n < 10
      · omega
      · simp only [h10, if_false]
        congr 1
        omega

theorem valFrom_toDigits (n : Nat) : valFrom 0 (Nat.toDigits 10 n) = n := by
  show valFrom 0 (Nat.toDigitsCore 10 (n + 1) n []) = n
  rw [valFrom_toDigitsCore (Nat.lt_succ_self n)]
  show pushDigits 0 n = n
  exact pushDigits_zero n

theorem repr_injective {m n : Nat} (h : Nat.repr m = Nat.repr n) : m = n := by
  have hd : (Nat.toDigits 10 m) = (Nat.toDigits 10 n) := by
    have := congrArg String.data h
    simpa [Nat.repr, List.asString] using this
  have := congrArg (valFrom 0) hd
  rwa [valFrom_toDigits, valFrom_toDigits] at this

theorem mem_toDigitsCore_digit {fuel : Nat} : ∀ {n : Nat} {ds : List Char}
    {c : Char}, c ∈ Nat.toDigitsCore 10 fuel n ds → c ∈ ds ∨ c.isDigit = true := by
  induction fuel with
  | zero => intro n ds c hc; exact Or.inl hc
  | succ f ih =>
    intro n ds c hc
    rw [Nat.toDigitsCore] at hc
    have hdig : (Nat.digitChar (n % 10)).isDigit = true := by
      have h10 : n % 10 < 10 := Nat.mod_lt _ (by omega)
      generalize hm : n % 10 = m at h10
      interval_cases m <;> rfl
    by_cases h0 : n / 10 = 0
    · simp only [h0, if_true] at hc
      rcases List.mem_cons.mp hc with h | h
      · exact Or.inr (h ▸ hdig)
      · exact Or.inl h
    · simp only [h0, if_false] at hc
      rcases ih hc with h | h
      · rcases List.mem_cons.mp h with h | h
        · exact Or.inr (h ▸ hdig)
        · exact Or.inl h
      · exact Or.inr h

theorem mem_repr_digit {n : Nat} {c : Char} (h : c ∈ (Nat.repr n).data) :
    c.isDigit = true := by
  have : c ∈ Nat.toDigitsCore 10 (n + 1) n [] := by
    simpa [Nat.repr, Nat.toDigits, List.asString] using h
  rcases mem_toDigitsCore_digit this with h | h
  · cases h
  · exact h

/- ### HTTP fetch layer: `FixedKHInsiderDownloader._get_with_retry`
(src/app.py lines 70-85).

One attempt either fails at network level (`requests.RequestException` from
`session.get`) or yields a response with a status code.  `resp.raise_for_status()`
raises an `HTTPError` - itself a `requests.RequestException`, hence caught by
the `except` clause - exactly when the status code is in 400..599.  The loop is
driven by the list of per-attempt outcomes, whose length is the `max_retries`
budget; the result records what the call does plus how many HTTP requests were
issued. -/

inductive AttemptOutcome
  | netErr
  | status (code : Nat)
deriving DecidableEq

inductive FetchResult
  | success (code : Nat)
  | raised
  | exhausted
deriving DecidableEq

/-- Status codes for which `resp.raise_for_status()` raises. -/
def isErrorStatus (c : Nat) : Bool :=
  decide (400 ≤ c) && decide (c < 600)

/-- `_get_with_retry`, driven by the list of per-attempt outcomes (one entry
per loop iteration of `for attempt in range(max_retries)`); the second
component counts attempts issued.  `exhausted` is the trailing `return None`,
reachable only with an empty budget. -/
def get_with_retry : List AttemptOutcome → FetchResult × Nat
  | [] => (.exhausted, 0)
  | o :: rest =>
    match o with
    | .netErr =>
      if rest.isEmpty then (.raised, 1)
      else ((get_with_retry rest).1, (get_with_retry rest).2 + 1)
    | .status c =>
      if c = 403 ∧ rest.isEmpty = false then
        ((get_with_retry rest).1, (get_with_retry rest).2 + 1)
      else if isErrorStatus c then
        if rest.isEmpty then (.raised, 1)
        else ((get_with_retry rest).1, (get_with_retry rest).2 + 1)
      else (.success c, 1)

/-- An attempt that does not produce a returnable response: network error or
an error status (403 included). -/
def isFailOutcome : AttemptOutcome → Bool
  | .netErr => true
  | .status c => isErrorStatus c

theorem get_with_retry_fail_cons {o : AttemptOutcome} {rest : List AttemptOutcome}
    (h : isFailOutcome o = true) :
    get_with_retry (o :: rest) =
      if rest.isEmpty then (.raised, 1)
      else ((get_with_retry rest).1, (get_with_retry rest).2 + 1) := by
  cases o with
  | netErr => rfl
  | status c =>
    have hc : isErrorStatus c = true := h
    by_cases h403 : c = 403
    · subst h403
      cases rest with
      | nil => simp [get_with_retry, hc]
      | cons b bs => simp [get_with_retry]
    · simp [get_with_retry, h403, hc]

theorem get_with_retry_ok_cons {c : Nat} {rest : List AttemptOutcome}
    (h : isErrorStatus c = false) :
    get_with_retry (.status c :: rest) = (.success c, 1) := by
  have h403 : c ≠ 403 := by
    intro hc; subst hc; simp [isErrorStatus] at h
  simp [get_with_retry, h403, h]

/-- Claim C2 concerns the claim that non-403 error statuses raise immediately;
the amended statement: every failing attempt (network error or any error
status, 403 or not) consumes one unit of the retry budget, the call raises
only when the whole budget fails, and otherwise returns the earliest
non-error-status response. -/
theorem get_with_retry_spec : ∀ (l : List AttemptOutcome), l ≠ [] →
    (l.all isFailOutcome = true → get_with_retry l = (.raised, l.length)) ∧
    (∀ (i c : Nat), (l.take i).all isFailOutcome = true →
      l[i]? = some (.status c) → isErrorStatus c = false →
      get_with_retry l = (.success c, i + 1)) := by
  intro l
  induction l with
  | nil => intro h; cases h rfl
  | cons o rest ih =>
    intro _
    constructor
    · intro hall
      rw [List.all_cons, Bool.and_eq_true] at hall
      rw [get_with_retry_fail_cons hall.1]
      cases rest with
      | nil => simp
      | cons b bs =>
        have := ((ih (by simp)).1) hall.2
        simp only [List.isEmpty_cons, if_false]
        rw [this]
        simp
    · intro i c htake hget hc
      cases i with
      | zero =>
        have : o = .status c := by simpa using hget
        subst this
        simpa using get_with_retry_ok_cons hc
      | succ i0 =>
        have hfail : isFailOutcome o = true := by
          rw [List.take_succ_cons, List.all_cons, Bool.and_eq_true] at htake
          exact htake.1
        have htake0 : (rest.take i0).all isFailOutcome = true := by
          rw [List.take_succ_cons, List.all_cons, Bool.and_eq_true] at htake
          exact htake.2
        have hget0 : rest[i0]? = some (.status c) := by simpa using hget
        have hne : rest ≠ [] := by
          intro he; subst he; simp at hget0
        have := ((ih hne).2) i0 c htake0 hget0 hc
        rw [get_with_retry_fail_cons hfail]
        have hrest : rest.isEmpty = false := by
          cases rest with
          | nil => cases hne rfl
          | cons b bs => rfl
        rw [hrest, this]
        simp

/- ### Data model -/

/-- One extracted track (`{'number': n, 'name': name, 'url': href}`). -/
structure Track where
  number : Nat
  name : String
  url : String
deriving DecidableEq

/-- Result of `get_soundtrack_info` that the download worker consumes (the
`id`/`icon` fields play no role in any claim and are omitted). -/
structure AlbumInfo where
  title : String
  tracks : List Track
deriving DecidableEq

/- ### Album-page track extraction:
`FixedKHInsiderDownloader._extract_tracks_from_table` (src/app.py 298-321).

A row of the `songlist` table is modelled by its `id` attribute and by the
result of `row.find('td', class_='clickable-row')` - `none` when no such cell
exists, `some none` when the cell exists but holds no `a[href]`, and
`some (some a)` when `cell.find('a', href=True)` yields anchor `a` with its
stripped text and raw `href` attribute. -/

structure TAnchor where
  text : String
  href : String
deriving DecidableEq

structure SongRow where
  rowId : Option String
  cellAnchor : Option (Option TAnchor)
deriving DecidableEq

/-- `row.get('id') in ['songlist_header', 'songlist_footer']`. -/
def rowSkip (r : SongRow) : Bool :=
  r.rowId = some "songlist_header" ∨ r.rowId = some "songlist_footer"

/-- `if href.startswith('/'): href = base_url + href`. -/
def prefixBase (base href : String) : String :=
  if startsWithS href "/" then base ++ href else href

/-- The row loop of `_extract_tracks_from_table`, carrying the running
ordinal `n` (initially 1, incremented only when a track is appended). -/
def extractRows (base : String) : Nat → List SongRow → List Track
  | _, [] => []
  | n, r :: rest =>
    if rowSkip r then extractRows base n rest
    else
      match r.cellAnchor with
      | none => extractRows base n rest
      | some none => extractRows base n rest
      | some (some a) =>
        let name := a.text
        let href := prefixBase base a.href
        if name ≠ "" ∧ href ≠ "" then
          { number := n, name := name, url := href } :: extractRows base (n + 1) rest
        else extractRows base n rest

/-- `_extract_tracks_from_table`: `soup.find('table', id='songlist')` either
finds no table (empty track list) or yields its rows. -/
def extract_tracks_from_table (base : String) (table : Option (List SongRow)) :
    List Track :=
  match table with
  | none => []
  | some rows => extractRows base 1 rows

theorem extractRows_numbers (base : String) : ∀ (rows : List SongRow) (n : Nat),
    (extractRows base n rows).map Track.number =
      List.range' n (extractRows base n rows).length := by
  intro rows
  induction rows with
  | nil => intro n; rfl
  | cons r rest ih =>
    intro n
    by_cases hskip : rowSkip r = true
    · simp only [extractRows]
      rw [if_pos hskip]
      exact ih n
    · simp only [extractRows]
      rw [if_neg hskip]
      match hca : r.cellAnchor with
      | none => exact ih n
      | some none => exact ih n
      | some (some a) =>
        dsimp only
        by_cases hn : a.text ≠ "" ∧ prefixBase base a.href ≠ ""
        · rw [if_pos hn]
          simp only [List.map_cons, List.length_cons, List.range'_succ]
          rw [ih (n + 1)]
        · rw [if_neg hn]
          exact ih n

/-- Claim C6: ordinals of an extracted track list are exactly 1, 2, ..., n in
list order, assigned by extraction order over accepted rows only - the
`number` field is the running counter and never reads the row contents, so it
is independent of any numbering embedded in the page or in track names. -/
theorem c6_track_ordinals_dense (base : String) (table : Option (List SongRow)) :
    (extract_tracks_from_table base table).map Track.number =
      List.range' 1 (extract_tracks_from_table base table).length := by
  match table with
  | none => rfl
  | some rows => exact extractRows_numbers base rows 1

/- ### Track binary-link resolution:
`FixedKHInsiderDownloader.get_download_link` (src/app.py 323-349).

A track page is modelled by the `src` attributes of its `audio` elements in
document order (`soup.find('audio')` is the head) and by its anchors, each
with its class list and optional `href` attribute. -/

structure HAnchor where
  classes : List String
  href : Option String
deriving DecidableEq

structure TrackDoc where
  audios : List (Option String)
  anchors : List HAnchor
deriving DecidableEq

/-- The audio-extension list appearing (twice, identically) at src/app.py
lines 344 and 359. -/
def audioExts : List String := [".mp3", ".flac", ".ogg", ".wav"]

/-- Heuristic 2: `for a in soup.find_all('a', class_='songDownloadLink',
href=True): return a.get('href')`. -/
def firstSongDL : List HAnchor → Option String
  | [] => none
  | a :: rest =>
    match a.href with
    | some h => if a.classes.contains "songDownloadLink" then some h else firstSongDL rest
    | none => firstSongDL rest

/-- Heuristic 3: first `a[href]` with nonempty href containing
`vgmsite.com`. -/
def firstVgm : List HAnchor → Option String
  | [] => none
  | a :: rest =>
    match a.href with
    | some h =>
      if h ≠ "" ∧ containsS h "vgmsite.com" = true then some h else firstVgm rest
    | none => firstVgm rest

/-- Heuristic 4: first `a[href]` whose lowercased href CONTAINS one of the
known audio extensions (`any(ext in h for ext in [...])`); the original,
unlowered href is returned. -/
def firstAudioExt : List HAnchor → Option String
  | [] => none
  | a :: rest =>
    match a.href with
    | some h =>
      if audioExts.any (fun e => containsS (lowerS h) e) then some h
      else firstAudioExt rest
    | none => firstAudioExt rest

/-- `get_download_link`: heuristic 1 is the first `audio` element's nonempty
`src` attribute; then heuristics 2-4 in order; `none` when all fail.  The
fetch/parse failure paths (`except` and `if not resp`) also yield `none` and
are subsumed by a document with no matching element. -/
def get_download_link (d : TrackDoc) : Option String :=
  let afterAudio :=
    match firstSongDL d.anchors with
    | some h => some h
    | none =>
      match firstVgm d.anchors with
      | some h => some h
      | none => firstAudioExt d.anchors
  match d.audios.head? with
  | some (some s) => if s ≠ "" then some s else afterAudio
  | _ => afterAudio

/- ### Claim-side formulations of the resolution cascade (C7) -/

/-- Heuristic 1 as both the claim and the code have it: the first `audio`
element's nonempty `src`. -/
def specAudioSrc (d : TrackDoc) : Option String :=
  match d.audios.head? with
  | some (some s) => if s ≠ "" then some s else none
  | _ => none

/-- Heuristic 2, spec formulation via `find?`. -/
def specSongDL (d : TrackDoc) : Option String :=
  (d.anchors.find? fun a => a.classes.contains "songDownloadLink" && a.href.isSome).bind
    HAnchor.href

/-- Heuristic 3, spec formulation via `find?`. -/
def specVgm (d : TrackDoc) : Option String :=
  (d.anchors.find? fun a =>
      match a.href with
      | some h => decide (h ≠ "") && containsS h "vgmsite.com"
      | none => false).bind
    HAnchor.href

/-- Heuristic 4 as the CLAIM words it: href ENDS in a known audio
extension. -/
def claimExtSuffix (d : TrackDoc) : Option String :=
  (d.anchors.find? fun a =>
      match a.href with
      | some h => audioExts.any fun e => endsWithS (lowerS h) e
      | none => false).bind
    HAnchor.href

/-- Heuristic 4 as the CODE has it: href CONTAINS a known audio extension. -/
def specExtContains (d : TrackDoc) : Option String :=
  (d.anchors.find? fun a =>
      match a.href with
      | some h => audioExts.any fun e => containsS (lowerS h) e
      | none => false).bind
    HAnchor.href

/-- The resolution cascade exactly as claim C7 states it: strict priority
order, first match wins, heuristic 4 by SUFFIX. -/
def claimResolve (d : TrackDoc) : Option String :=
  match specAudioSrc d with
  | some h => some h
  | none =>
    match specSongDL d with
    | some h => some h
    | none =>
      match specVgm d with
      | some h => some h
      | none => claimExtSuffix d

/-- The cascade with heuristic 4 amended to substring containment. -/
def amendedResolve (d : TrackDoc) : Option String :=
  match specAudioSrc d with
  | some h => some h
  | none =>
    match specSongDL d with
    | some h => some h
    | none =>
      match specVgm d with
      | some h => some h
      | none => specExtContains d

theorem firstSongDL_eq_find (l : List HAnchor) :
    firstSongDL l =
      (l.find? fun a => a.classes.contains "songDownloadLink" && a.href.isSome).bind
        HAnchor.href := by
  induction l with
  | nil => rfl
  | cons a rest ih =>
    match hh : a.href with
    | some h =>
      by_cases hc : "songDownloadLink" ∈ a.classes
      · simp [firstSongDL, hh, hc, List.find?]
      · simp [firstSongDL, hh, hc, List.find?, ih]
    | none =>
      simp [firstSongDL, hh, List.find?, ih, Bool.and_false]

theorem firstVgm_eq_find (l : List HAnchor) :
    firstVgm l =
      (l.find? fun a =>
        match a.href with
        | some h => decide (h ≠ "") && containsS h "vgmsite.com"
        | none => false).bind HAnchor.href := by
  induction l with
  | nil => rfl
  | cons a rest ih =>
    match hh : a.href with
    | some h =>
      by_cases hc : h ≠ "" ∧ containsS h "vgmsite.com" = true
      · simp [firstVgm, hh, hc, List.find?, hc.1, hc.2]
      · rw [List.find?]
        have : (decide (h ≠ "") && containsS h "vgmsite.com") = false := by
          rcases Decidable.not_and_iff_or_not.mp hc with h1 | h1
          · simp [h1]
          · simp [Bool.not_eq_true] at h1
            simp [h1]
        simp only [hh, this]
        simp [firstVgm, hh, hc, ih]
    | none =>
      simp [firstVgm, hh, List.find?, ih]

theorem firstAudioExt_eq_find (l : List HAnchor) :
    firstAudioExt l =
      (l.find? fun a =>
        match a.href with
        | some h => audioExts.any fun e => containsS (lowerS h) e
        | none => false).bind HAnchor.href := by
  induction l with
  | nil => rfl
  | cons a rest ih =>
    match hh : a.href with
    | some h =>
      by_cases hc : (audioExts.any fun e => containsS (lowerS h) e) = true
      · simp [firstAudioExt, hh, hc, List.find?]
      · simp only [Bool.not_eq_true] at hc
        simp [firstAudioExt, hh, hc, List.find?, ih]
    | none =>
      simp [firstAudioExt, hh, List.find?, ih]

/-- Claim C7 counterexample: a track page with no audio element, no
`songDownloadLink` anchor, no `vgmsite.com` anchor, and a single anchor whose
href merely CONTAINS `.mp3` without ending in an audio extension.  The code
resolves it; the claim's cascade (suffix matching) resolves nothing. -/
theorem c7_counterexample :
    get_download_link ⟨[], [⟨[], some "x.mp3.html"⟩]⟩ = some "x.mp3.html" ∧
    claimResolve ⟨[], [⟨[], some "x.mp3.html"⟩]⟩ = none := by
  constructor <;> decide

/-- Claim C7 amended: the four heuristics run in strict priority order with
first-match-wins and `none` when all fail, but heuristic 4 matches by
substring CONTAINMENT of a known audio extension in the lowercased href, not
by suffix. -/
theorem c7_amended (d : TrackDoc) : get_download_link d = amendedResolve d := by
  unfold get_download_link amendedResolve
  rw [firstSongDL_eq_find, firstVgm_eq_find, firstAudioExt_eq_find]
  unfold specSongDL specVgm specExtContains
  match hh : d.audios.head? with
  | some (some s) =>
    by_cases hs : s ≠ ""
    · simp [specAudioSrc, hh, hs]
    · simp only [Decidable.not_not] at hs
      subst hs
      simp [specAudioSrc, hh]
  | some none => simp [specAudioSrc, hh]
  | none => simp [specAudioSrc, hh]

/- ### Filenames:
`download_soundtrack` lines 414-415 builds `f"{track['number']:02d} - {safe_name}"`
with `safe_name = "".join(c for c in name if c.isalnum() or c in (' ','-','_','.')).strip()`,
and `download_track` lines 359-360 appends `.mp3` when the filename ends in
none of the known audio extensions. -/

/-- The character filter of the `"".join(...)` comprehension (also used on the
album title at line 400). -/
def keepChar (c : Char) : Bool :=
  c.isAlphanum || c = ' ' || c = '-' || c = '_' || c = '.'

/-- `"".join(c for c in s if keepChar c).strip()`. -/
def sanitize (s : String) : String :=
  pyStrip (String.mk (s.data.filter keepChar))

/-- Python `f"{n:02d}"`: zero-pad to a MINIMUM width of two. -/
def pad2 (n : Nat) : String :=
  if n < 10 then "0" ++ Nat.repr n else Nat.repr n

/-- Line 415: `f"{track['number']:02d} - {safe_name}"`. -/
def trackFilename (num : Nat) (name : String) : String :=
  pad2 num ++ " - " ++ sanitize name

/-- Lines 359-360 of `download_track`: append `.mp3` unless the name already
ends in a known audio extension. -/
def withDefaultExt (fname : String) : String :=
  if audioExts.any (fun e => endsWithS fname e) then fname else fname ++ ".mp3"

/-- The on-disk basename of a downloaded track. -/
def diskFilename (num : Nat) (name : String) : String :=
  withDefaultExt (trackFilename num name)

/-- Claim C9 counterexample, two parts at concrete inputs.  (a) The display
name `" A"` (leading space): the claim's description - ordinal, `" - "`, then
the name with disallowed characters removed - yields `"01 -  A.mp3"`, but the
code also strips leading/trailing whitespace and produces `"01 - A.mp3"`.
(b) Ordinal 100: `f"{100:02d}"` is `"100"`, so the ordinal prefix has three
digits, not the "always two digits" the claim asserts. -/
theorem c9_counterexample :
    diskFilename 1 " A" = "01 - A.mp3" ∧
    diskFilename 1 " A" ≠ "01 -  A.mp3" ∧
    diskFilename 100 "X" = "100 - X.mp3" ∧
    (pad2 100).length = 3 := by
  refine ⟨by decide, by decide, by decide, by decide⟩

theorem data_filter_keepChar_not_bad {s : String} {c : Char}
    (h : c ∈ s.data.filter keepChar) : ¬(c = ':' ∨ c = '/' ∨ c = '?') := by
  have hk : keepChar c = true := (List.mem_filter.mp h).2
  rintro (rfl | rfl | rfl) <;> simp [keepChar] at hk

theorem mem_pyStrip {s : String} {c : Char} (h : c ∈ (pyStrip s).data) :
    c ∈ s.data := by
  unfold pyStrip at h
  simp only [List.mem_reverse] at h
  have h1 := (List.dropWhile_sublist Char.isWhitespace).subset h
  rw [List.mem_reverse] at h1
  exact (List.dropWhile_sublist Char.isWhitespace).subset h1

theorem mem_sanitize_keep {s : String} {c : Char} (h : c ∈ (sanitize s).data) :
    keepChar c = true := by
  have := mem_pyStrip h
  exact (List.mem_filter.mp (by simpa using this)).2

theorem mem_pad2_digit {n : Nat} {c : Char} (h : c ∈ (pad2 n).data) :
    c = '0' ∨ c.isDigit = true := by
  unfold pad2 at h
  by_cases hn : n < 10
  · rw [if_pos hn] at h
    have h2 : c = '0' ∨ c ∈ (Nat.repr n).data := by simpa using h
    rcases h2 with h1 | h1
    · exact Or.inl h1
    · exact Or.inr (mem_repr_digit h1)
  · rw [if_neg hn] at h
    exact Or.inr (mem_repr_digit h)

theorem endsWithS_append (s e : String) : endsWithS (s ++ e) e = true := by
  unfold endsWithS
  rw [String.data_append]
  exact List.isSuffixOf_iff_suffix.mpr (List.suffix_append s.data e.data)

/-- Claim C9 amended: the on-disk filename is the ordinal zero-padded to a
minimum of two digits (exactly two whenever the ordinal is at most 99),
`" - "`, then the display name filtered to alphanumerics, spaces, `-`, `_`,
`.` AND stripped of leading/trailing whitespace, with `.mp3` appended when the
result ends in no known audio extension; it never contains `:`, `/` or `?`,
and always ends in a known audio extension. -/
theorem c9_amended (num : Nat) (name : String) :
    (∀ c ∈ (diskFilename num name).data, ¬(c = ':' ∨ c = '/' ∨ c = '?')) ∧
    (num ≤ 99 → (pad2 num).length = 2) ∧
    (audioExts.any fun e => endsWithS (diskFilename num name) e) = true := by
  refine ⟨?_, ?_, ?_⟩
  · intro c hc hbad
    have hnotdigit : c.isDigit = false := by
      rcases hbad with rfl | rfl | rfl <;> rfl
    have hnotkeep : keepChar c = false := by
      rcases hbad with rfl | rfl | rfl <;> rfl
    have hsep : ¬ c ∈ (" - " : String).data := by
      rcases hbad with rfl | rfl | rfl <;> decide
    have hext : ¬ c ∈ (".mp3" : String).data := by
      rcases hbad with rfl | rfl | rfl <;> decide
    unfold diskFilename withDefaultExt at hc
    have hcore : c ∈ (trackFilename num name).data := by
      by_cases hfit : (audioExts.any fun e => endsWithS (trackFilename num name) e) = true
      · rw [if_pos hfit] at hc
        exact hc
      · rw [if_neg (by simp [hfit])] at hc
        rw [String.data_append] at hc
        rcases List.mem_append.mp hc with h | h
        · exact h
        · exact absurd h hext
    unfold trackFilename at hcore
    rw [String.data_append, String.data_append] at hcore
    rcases List.mem_append.mp hcore with h | h
    · rcases List.mem_append.mp h with h1 | h1
      · rcases mem_pad2_digit h1 with h2 | h2
        · rcases hbad with rfl | rfl | rfl <;> simp at h2
        · rw [h2] at hnotdigit
          cases hnotdigit
      · exact hsep h1
    · have := mem_sanitize_keep h
      rw [this] at hnotkeep
      cases hnotkeep
  · intro h99
    unfold pad2
    by_cases hn : num < 10
    · rw [if_pos hn]
      interval_cases num <;> rfl
    · rw [if_neg hn]
      have h10 : 10 ≤ num := by omega
      interval_cases num <;> rfl
  · unfold diskFilename withDefaultExt
    by_cases hfit : (audioExts.any fun e => endsWithS (trackFilename num name) e) = true
    · rw [if_pos hfit]
      exact hfit
    · rw [if_neg (by simp [hfit])]
      have := endsWithS_append (trackFilename num name) ".mp3"
      simp [audioExts]
      exact Or.inl this

/-- Witness for `c9_amended` at the spec's own example name. -/
theorem c9_amended_witness :
    diskFilename 5 "Boss: Final/Battle??" = "05 - Boss FinalBattle.mp3" ∧
    ¬(':' ∈ (diskFilename 5 "Boss: Final/Battle??").data) ∧
    (pad2 5).length = 2 := by
  refine ⟨by decide, ?_, (c9_amended 5 "Boss: Final/Battle??").2.1 (by decide)⟩
  intro hmem
  exact (c9_amended 5 "Boss: Final/Battle??").1 ':' hmem (Or.inl rfl)

/- ### Search: `FixedKHInsiderDownloader.search` (src/app.py 87-139).

The whole body sits in `try: ... except Exception: return []`; the only raiser
is `_get_with_retry` (modelled as the `Except.error` input); `if not resp`
covers the `return None` case of an empty retry budget.  A results-table row
is modelled by whether it contains a `th`, its anchors (those having an `href`
attribute, in order, as `row.find` sees them) and its first image's `src`
attribute; the fallback whole-document scan sees every `a[href]` paired with
the `src` of the first image under its parent. -/

structure SearchResult where
  id : String
  name : String
  url : String
  icon : Option String
deriving DecidableEq

structure SRow where
  hasTh : Bool
  anchors : List TAnchor
  imgSrc : Option String
deriving DecidableEq

structure ScanAnchor where
  anchor : TAnchor
  parentImgSrc : Option String
deriving DecidableEq

structure SearchDoc where
  table : Option (List SRow)
  anchors : List ScanAnchor
deriving DecidableEq

/-- The href lambda `lambda x: x and '/game-soundtracks/album/' in x`. -/
def isAlbumHref (h : String) : Bool :=
  decide (h ≠ "") && containsS h "/game-soundtracks/album/"

/-- `album_url.split('/album/')[-1]`. -/
def albumIdOf (url : String) : String :=
  (url.splitOn "/album/").getLastD url

/-- `(base_url + src) if src.startswith('/') else src`. -/
def mkIcon (base src : String) : String :=
  if startsWithS src "/" then base ++ src else src

/-- One iteration of the table-row loop: `None` when the row is skipped. -/
def rowResult (base : String) (r : SRow) : Option SearchResult :=
  if r.hasTh then none
  else
    match r.anchors.find? (fun a => isAlbumHref a.href) with
    | none => none
    | some link =>
      let album_url := prefixBase base link.href
      let icon : Option String :=
        match r.imgSrc with
        | some src => if src ≠ "" then some (mkIcon base src) else none
        | none => none
      if link.text ≠ "" then
        some ⟨albumIdOf album_url, link.text, album_url, icon⟩
      else none

/-- One iteration of the fallback whole-document anchor scan. -/
def scanResult (base : String) (sa : ScanAnchor) : Option SearchResult :=
  if isAlbumHref sa.anchor.href then
    let album_url := prefixBase base sa.anchor.href
    let icon : Option String :=
      match sa.parentImgSrc with
      | some src => if src ≠ "" then some (mkIcon base src) else none
      | none => none
    if sa.anchor.text ≠ "" ∧ 2 < sa.anchor.text.length then
      some ⟨albumIdOf album_url, sa.anchor.text, album_url, icon⟩
    else none
  else none

/-- `search`: the fetch either raises (`Except.error`), returns `None`, or a
parsed document; results from the table, else the fallback scan; capped by
`results[:20]`. -/
def search (base : String) (fetch : Except Unit (Option SearchDoc)) :
    List SearchResult :=
  match fetch with
  | .error _ => []
  | .ok none => []
  | .ok (some doc) =>
    let tableResults :=
      match doc.table with
      | none => []
      | some rows => rows.filterMap (rowResult base)
    let results :=
      if tableResults.isEmpty then doc.anchors.filterMap (scanResult base)
      else tableResults
    results.take 20

/-- Claim C8: `search` always yields at most 20 results, and any failure of
the fetch layer (a raised exception, caught by the `except` clause, or a
`None` response) yields the empty list.  Totality of `search` is the model of
"never raises": every input is mapped to a plain list. -/
theorem c8_search_bounded (base : String) (fetch : Except Unit (Option SearchDoc)) :
    (search base fetch).length ≤ 20 ∧
    (∀ e, search base (.error e) = []) ∧
    search base (.ok none) = [] := by
  refine ⟨?_, fun e => rfl, rfl⟩
  match fetch with
  | .error _ => simp [search]
  | .ok none => simp [search]
  | .ok (some doc) =>
    simp only [search]
    exact List.length_take_le 20 _

/- ### Download orchestrator:
`FixedKHInsiderDownloader.download_soundtrack` (src/app.py 371-432),
`start_download` (1882-1904) and `cancel_download` (1912-1919).

Model of the shared state for one session id: `download_progress[pid]` is the
optional `Session` record and `pid in active_downloads` is the `active` flag.
The worker is driven by
  - the result of `get_soundtrack_info` (`info`),
  - the per-position success of `download_track` (`okf j` for loop position
    `j`, 0-based; `download_track` catches all its own exceptions and returns
    a boolean, so this oracle is faithful),
  - `cancelAt`: the point at which a `/cancel` request executes, counted in
    membership checks - `some c` means the cancel lands immediately before
    the worker's check number `c` (loop-top checks are numbered 0..total-1
    and the post-loop check is number `total`); `none`, or `some c` with
    `c > total`, means no cancel lands during the run (a later cancel is
    modelled by composing `cancel_download` on the resulting store).
The worker's only remaining effectful call, `os.makedirs`, is modelled as
succeeding; every other inner call catches its own exceptions, so the outer
`except` branch is unreachable in the modelled behaviours. -/

inductive Status
  | starting
  | downloading
  | completed
  | error
  | cancelled
deriving DecidableEq

def isTerminal : Status → Bool
  | .completed => true
  | .error => true
  | .cancelled => true
  | _ => false

structure Session where
  status : Status
  current_track : Nat
  total_tracks : Nat
  current_file : String
  message : String
deriving DecidableEq

/-- The record written on registration (line 374-377). -/
def initialSession : Session :=
  { status := .starting, current_track := 0, total_tracks := 0,
    current_file := "", message := "Getting album information..." }

/-- Line 386: `(not selected_tracks) or (t['name'] in selected_tracks)` -
note that an EMPTY provided list is falsy in Python and therefore keeps every
track, exactly like `None`. -/
def keepTrack (selected : Option (List String)) (t : Track) : Bool :=
  match selected with
  | none => true
  | some sel => sel.isEmpty || sel.contains t.name

/-- Is the session still in `active_downloads` at membership check number
`k`? -/
def activeAt (cancelAt : Option Nat) (k : Nat) : Bool :=
  match cancelAt with
  | none => true
  | some c => decide (k < c)

/-- `pid in active_downloads` after the worker run: `start_download` inserted
it and only the cancel route ever removes it - the worker itself never
does. -/
def activeAfterRun (cancelAt : Option Nat) : Bool :=
  cancelAt.isNone

structure LoopOut where
  last : Session
  done : Nat
  processed : List Track
  writes : List Session
deriving DecidableEq

/-- The progress update at the top of one loop iteration (lines 408-413);
the status field is untouched. -/
def loopWrite (total j : Nat) (t : Track) (s : Session) : Session :=
  { s with
    current_track := j + 1
    current_file := t.name
    message := "Downloading: " ++ t.name ++ " (" ++ Nat.repr (j + 1) ++
      "/" ++ Nat.repr total ++ ")" }

/-- The per-track loop (lines 404-418): check membership, write progress,
attempt the download, count successes.  `j` is the 0-based loop position
(Python's `i = j + 1`), `s` the current progress record. -/
def dlLoop (okf : Nat → Bool) (cancelAt : Option Nat) (total : Nat) :
    Nat → Nat → Session → List Track → LoopOut
  | _, done, s, [] => ⟨s, done, [], []⟩
  | j, done, s, t :: rest =>
    if activeAt cancelAt j = false then ⟨s, done, [], []⟩
    else
      let s1 := loopWrite total j t s
      let done1 := if okf j then done + 1 else done
      let r := dlLoop okf cancelAt total (j + 1) done1 s1 rest
      ⟨r.last, r.done, t :: r.processed, s1 :: r.writes⟩

structure WorkerRun where
  final : Session
  returned : Bool
  processed : List Track
  trace : List Session
deriving DecidableEq

/-- `download_soundtrack`.  `trace` lists the successive values of
`download_progress[progress_id]` after each write the worker performs. -/
def download_soundtrack (album_id : String) (info : Option AlbumInfo)
    (selected : Option (List String)) (okf : Nat → Bool)
    (cancelAt : Option Nat) (output_path : String) : WorkerRun :=
  let s0 := initialSession
  match info with
  | none =>
    let s1 : Session :=
      { s0 with status := .error, message := "Album not found: " ++ album_id }
    ⟨s1, false, [], [s0, s1]⟩
  | some inf =>
    let tracks := inf.tracks.filter (keepTrack selected)
    let total := tracks.length
    if total = 0 then
      let s1 : Session :=
        { s0 with status := .error, message := "No tracks to download" }
      ⟨s1, false, [], [s0, s1]⟩
    else
      let s1 : Session :=
        { s0 with
          total_tracks := total
          status := .downloading
          message := "Downloading " ++ Nat.repr total ++ " tracks from " ++ inf.title }
      let album_dir := output_path ++ "/" ++ sanitize inf.title
      let r := dlLoop okf cancelAt total 0 0 s1 tracks
      if activeAt cancelAt total = true then
        let sF : Session :=
          { r.last with
            status := .completed
            current_track := r.done
            message := "Downloaded " ++ Nat.repr r.done ++ "/" ++ Nat.repr total ++
              " tracks to: " ++ album_dir }
        ⟨sF, decide (0 < r.done), r.processed, s0 :: s1 :: (r.writes ++ [sF])⟩
      else
        let sF : Session :=
          { r.last with status := .cancelled, message := "Download cancelled" }
        ⟨sF, decide (0 < r.done), r.processed, s0 :: s1 :: (r.writes ++ [sF])⟩

/-- The per-session shared state seen by the routes. -/
structure Store where
  progress : Option Session
  active : Bool
deriving DecidableEq

/-- The `/cancel/<progress_id>` route: succeeds iff the id is in
`active_downloads` (irrespective of the session's status), removing it and
overwriting the status; `False` models the 404 response. -/
def cancel_download (st : Store) : Store × Bool :=
  if st.active then
    ({ progress := st.progress.map fun s =>
        { s with status := .cancelled, message := "Download cancelled" }
       active := false }, true)
  else (st, false)

/- ### Loop lemmas -/

theorem dlLoop_status (okf : Nat → Bool) (ca : Option Nat) (total : Nat) :
    ∀ (l : List Track) (j done : Nat) (s : Session),
    (dlLoop okf ca total j done s l).last.status = s.status ∧
    ∀ x ∈ (dlLoop okf ca total j done s l).writes, x.status = s.status := by
  intro l
  induction l with
  | nil =>
    intro j done s
    exact ⟨rfl, fun x hx => absurd hx (List.not_mem_nil x)⟩
  | cons t rest ih =>
    intro j done s
    by_cases hact : activeAt ca j = false
    · simp only [dlLoop]
      rw [if_pos hact]
      exact ⟨rfl, fun x hx => absurd hx (List.not_mem_nil x)⟩
    · simp only [dlLoop]
      rw [if_neg hact]
      refine ⟨(ih (j + 1) (if okf j then done + 1 else done) (loopWrite total j t s)).1, ?_⟩
      intro x hx
      rcases List.mem_cons.mp hx with h | h
      · subst h; rfl
      · exact (ih (j + 1) (if okf j then done + 1 else done) (loopWrite total j t s)).2 x h

theorem dlLoop_processed_none (okf : Nat → Bool) (total : Nat) :
    ∀ (l : List Track) (j done : Nat) (s : Session),
    (dlLoop okf none total j done s l).processed = l := by
  intro l
  induction l with
  | nil => intro j done s; rfl
  | cons t rest ih =>
    intro j done s
    simp only [dlLoop]
    rw [if_neg (by simp [activeAt])]
    simp [ih]

theorem dlLoop_processed_cancel (okf : Nat → Bool) (total c : Nat) :
    ∀ (l : List Track) (j done : Nat) (s : Session),
    (dlLoop okf (some c) total j done s l).processed = l.take (c - j) := by
  intro l
  induction l with
  | nil => intro j done s; simp [dlLoop]
  | cons t rest ih =>
    intro j done s
    by_cases hj : j < c
    · have hact : ¬ activeAt (some c) j = false := by simp [activeAt, hj]
      simp only [dlLoop]
      rw [if_neg hact]
      have hcj : c - j = (c - (j + 1)) + 1 := by omega
      rw [hcj, List.take_succ_cons]
      simp [ih]
    · have hact : activeAt (some c) j = false := by simp [activeAt]; omega
      simp only [dlLoop]
      rw [if_pos hact]
      have hcj : c - j = 0 := by omega
      rw [hcj, List.take_zero]

theorem dlLoop_done_none (okf : Nat → Bool) (total : Nat) :
    ∀ (l : List Track) (j done : Nat) (s : Session),
    (dlLoop okf none total j done s l).done =
      done + ((List.range' j l.length).filter okf).length := by
  intro l
  induction l with
  | nil => intro j done s; simp [dlLoop]
  | cons t rest ih =>
    intro j done s
    simp only [dlLoop]
    rw [if_neg (by simp [activeAt])]
    show (dlLoop okf none total (j + 1) (if okf j then done + 1 else done) _ rest).done = _
    rw [ih]
    simp only [List.length_cons, List.range'_succ, List.filter_cons]
    by_cases hok : okf j = true
    · simp only [hok, if_true, List.length_cons]
      omega
    · rw [Bool.not_eq_true] at hok
      simp only [hok, Bool.false_eq_true, if_false]

/- ### Forward status chains (C1) -/

/-- One admissible consecutive pair of progress-record statuses: unchanged,
starting to downloading, or any non-terminal status to a terminal one. -/
def forwardStep (a b : Status) : Prop :=
  a = b ∨ (a = .starting ∧ b = .downloading) ∨
    (isTerminal a = false ∧ isTerminal b = true)

theorem chain_downloading (ls : List Status) (hall : ∀ x ∈ ls, x = .downloading)
    (b : Status) (hb : isTerminal b = true) :
    List.Chain' forwardStep (.downloading :: (ls ++ [b])) := by
  induction ls with
  | nil =>
    exact List.chain'_cons.mpr ⟨Or.inr (Or.inr ⟨rfl, hb⟩), List.chain'_singleton b⟩
  | cons x xs ih =>
    have hx : x = Status.downloading := hall x (List.mem_cons_self x xs)
    subst hx
    exact List.chain'_cons.mpr
      ⟨Or.inl rfl, ih fun y hy => hall y (List.mem_cons_of_mem _ hy)⟩

/-- Status forwardness of the worker's own writes, every input: the trace is
a forward chain and only its last entry can carry a terminal status. -/
theorem worker_trace_forward (album_id : String) (info : Option AlbumInfo)
    (selected : Option (List String)) (okf : Nat → Bool) (cancelAt : Option Nat)
    (output_path : String) :
    List.Chain' forwardStep
      ((download_soundtrack album_id info selected okf cancelAt output_path).trace.map
        Session.status) ∧
    ∀ x ∈ (download_soundtrack album_id info selected okf cancelAt
        output_path).trace.dropLast, isTerminal x.status = false := by
  match info with
  | none =>
    constructor
    · exact List.chain'_cons.mpr ⟨Or.inr (Or.inr ⟨rfl, rfl⟩), List.chain'_singleton _⟩
    · intro x hx
      have : x = initialSession := by
        simpa [download_soundtrack, List.dropLast] using hx
      subst this
      rfl
  | some inf =>
    by_cases h0 : (inf.tracks.filter (keepTrack selected)).length = 0
    · constructor
      · simp only [download_soundtrack]
        rw [if_pos h0]
        exact List.chain'_cons.mpr ⟨Or.inr (Or.inr ⟨rfl, rfl⟩), List.chain'_singleton _⟩
      · intro x hx
        simp only [download_soundtrack] at hx
        rw [if_pos h0] at hx
        have : x = initialSession := by
          simpa [List.dropLast] using hx
        subst this
        rfl
    · have hwr := dlLoop_status okf cancelAt (inf.tracks.filter (keepTrack selected)).length
        (inf.tracks.filter (keepTrack selected)) 0 0
      by_cases hac : activeAt cancelAt (inf.tracks.filter (keepTrack selected)).length = true
      · constructor
        · simp only [download_soundtrack]
          rw [if_neg h0, if_pos hac]
          simp only [List.map_cons, List.map_append, List.map_nil]
          refine List.chain'_cons.mpr ⟨Or.inr (Or.inl ⟨rfl, rfl⟩), ?_⟩
          refine chain_downloading _ ?_ _ rfl
          intro x hx
          rcases List.mem_map.mp hx with ⟨y, hy, rfl⟩
          exact (hwr _).2 y hy
        · simp only [download_soundtrack]
          rw [if_neg h0, if_pos hac]
          intro x hx
          rw [show ∀ (a b : Session) (l : List Session) (z : Session),
              a :: b :: (l ++ [z]) = (a :: b :: l) ++ [z] from fun a b l z => by simp,
            List.dropLast_concat] at hx
          rcases List.mem_cons.mp hx with h | h
          · subst h; rfl
          rcases List.mem_cons.mp h with h | h
          · subst h; rfl
          · rw [(hwr _).2 x h]
            rfl
      · constructor
        · simp only [download_soundtrack]
          rw [if_neg h0, if_neg hac]
          simp only [List.map_cons, List.map_append, List.map_nil]
          refine List.chain'_cons.mpr ⟨Or.inr (Or.inl ⟨rfl, rfl⟩), ?_⟩
          refine chain_downloading _ ?_ _ rfl
          intro x hx
          rcases List.mem_map.mp hx with ⟨y, hy, rfl⟩
          exact (hwr _).2 y hy
        · simp only [download_soundtrack]
          rw [if_neg h0, if_neg hac]
          intro x hx
          rw [show ∀ (a b : Session) (l : List Session) (z : Session),
              a :: b :: (l ++ [z]) = (a :: b :: l) ++ [z] from fun a b l z => by simp,
            List.dropLast_concat] at hx
          rcases List.mem_cons.mp hx with h | h
          · subst h; rfl
          rcases List.mem_cons.mp h with h | h
          · subst h; rfl
          · rw [(hwr _).2 x h]
            rfl

/-- Claim C1 amended: within one worker run the status only moves forward
(`starting`, then possibly `downloading`, then exactly one terminal write,
which is the last write).  But the cancel route succeeds on ANY session still
present in the active registry - which the worker never cleans up - so a
session whose status is already terminal (`completed` or `error`) can still
be switched to `cancelled` by `cancel_download`; `cancel_download` fails only
for ids absent from the registry. -/
theorem c1_amended :
    (∀ (album_id : String) (info : Option AlbumInfo)
      (selected : Option (List String)) (okf : Nat → Bool)
      (cancelAt : Option Nat) (output_path : String),
      List.Chain' forwardStep
        ((download_soundtrack album_id info selected okf cancelAt output_path).trace.map
          Session.status) ∧
      ∀ x ∈ (download_soundtrack album_id info selected okf cancelAt
          output_path).trace.dropLast, isTerminal x.status = false) ∧
    (∀ st : Store, (cancel_download st).2 = st.active ∧
      ((cancel_download st).2 = true →
        (cancel_download st).1.progress = st.progress.map
          (fun s => { s with status := .cancelled, message := "Download cancelled" }) ∧
        (cancel_download st).1.active = false)) := by
  constructor
  · exact worker_trace_forward
  · intro st
    by_cases h : st.active = true
    · constructor
      · simp [cancel_download, h]
      · intro _
        constructor <;> simp [cancel_download, h]
    · rw [Bool.not_eq_true] at h
      constructor
      · simp [cancel_download, h]
      · intro hc
        simp [cancel_download, h] at hc

/-- Witness for `c1_amended` at concrete inputs. -/
theorem c1_amended_witness :
    isTerminal initialSession.status = false ∧
    (cancel_download ⟨some initialSession, true⟩).1.active = false := by
  constructor
  · exact (c1_amended.1 "a" none none (fun _ => true) none "o").2 initialSession (by decide)
  · exact ((c1_amended.2 ⟨some initialSession, true⟩).2 (by decide)).2

/-- A one-track album whose download completes untroubled. -/
def demoAlbum : AlbumInfo := ⟨"Demo", [⟨1, "Intro", "u1"⟩]⟩

/-- The finished worker run for `demoAlbum` with no cancellation. -/
def demoRun : WorkerRun :=
  download_soundtrack "demo" (some demoAlbum) none (fun _ => true) none "out"

/-- Claim C1 counterexample: after the worker finishes with `completed`, the
session is still in the active registry (the worker never removes it), so
`cancel_download` succeeds on this terminal session and overwrites its status
with `cancelled` - a terminal status changes, and a cancel succeeds on a
session that HAS reached a terminal state, contradicting both parts of the
claim. -/
theorem c1_counterexample :
    demoRun.final.status = Status.completed ∧
    activeAfterRun none = true ∧
    (cancel_download ⟨some demoRun.final, activeAfterRun none⟩).2 = true ∧
    ((cancel_download ⟨some demoRun.final, activeAfterRun none⟩).1.progress.map
      Session.status) = some Status.cancelled := by
  refine ⟨by decide, rfl, by decide, by decide⟩

/- ### Claim C3: selected-track filtering -/

/-- The filter as the CLAIM words it: when a list is provided, keep exactly
the tracks whose name is a member. -/
def claimKeep (selected : Option (List String)) (t : Track) : Bool :=
  match selected with
  | none => true
  | some sel => sel.contains t.name

def introAlbum : AlbumInfo := ⟨"A", [⟨1, "Intro", "u1"⟩]⟩

/-- Claim C3 counterexample: a PROVIDED BUT EMPTY selection list.  The claim
mandates keeping exactly the members of the set - none - hence an error
session and a `false` return; but `not selected_tracks` is true for the empty
Python list, so the code keeps every track, completes, and returns true. -/
theorem c3_counterexample :
    keepTrack (some []) ⟨1, "Intro", "u1"⟩ = true ∧
    claimKeep (some []) ⟨1, "Intro", "u1"⟩ = false ∧
    (download_soundtrack "a" (some introAlbum) (some []) (fun _ => true) none
      "o").final.status = Status.completed ∧
    (download_soundtrack "a" (some introAlbum) (some []) (fun _ => true) none
      "o").returned = true := by
  refine ⟨rfl, rfl, by decide, by decide⟩

/-- Claim C3 amended: a null OR EMPTY `selectedTrackNames` keeps every track;
a non-empty one keeps exactly the tracks whose display name is a member
(duplicated names are all kept); and when the filtered list is empty the
session is set to `error` and the worker returns false. -/
theorem c3_amended :
    (∀ ts : List Track, ts.filter (keepTrack none) = ts) ∧
    (∀ ts : List Track, ts.filter (keepTrack (some [])) = ts) ∧
    (∀ (sel : List String) (ts : List Track), sel ≠ [] →
      ts.filter (keepTrack (some sel)) = ts.filter fun t => sel.contains t.name) ∧
    (∀ (album_id output_path : String) (inf : AlbumInfo)
      (selected : Option (List String)) (okf : Nat → Bool),
      inf.tracks.filter (keepTrack selected) = [] →
      (download_soundtrack album_id (some inf) selected okf none
        output_path).final.status = Status.error ∧
      (download_soundtrack album_id (some inf) selected okf none
        output_path).returned = false) := by
  refine ⟨?_, ?_, ?_, ?_⟩
  · intro ts
    exact List.filter_eq_self.mpr fun a _ => rfl
  · intro ts
    exact List.filter_eq_self.mpr fun a _ => rfl
  · intro sel ts hne
    apply List.filter_congr
    intro t _
    cases sel with
    | nil => cases hne rfl
    | cons a as => simp [keepTrack]
  · intro album_id output_path inf selected okf hfil
    have h0 : (inf.tracks.filter (keepTrack selected)).length = 0 := by
      rw [hfil]; rfl
    constructor
    · simp only [download_soundtrack]
      rw [if_pos h0]
    · simp only [download_soundtrack]
      rw [if_pos h0]

/-- Witness for `c3_amended`: the spec's own duplicate-name example, and an
empty filter result producing the error state. -/
theorem c3_amended_witness :
    ([⟨1, "Intro", "u1"⟩, ⟨2, "Battle", "u2"⟩, ⟨3, "Battle", "u3"⟩] : List Track).filter
        (keepTrack (some ["Battle"])) =
      [⟨2, "Battle", "u2"⟩, ⟨3, "Battle", "u3"⟩] ∧
    (download_soundtrack "a" (some introAlbum) (some ["zzz"]) (fun _ => true) none
      "o").final.status = Status.error := by
  constructor
  · rw [c3_amended.2.2.1 ["Battle"] _ (by decide)]
    decide
  · exact (c3_amended.2.2.2 "a" "o" introAlbum (some ["zzz"]) (fun _ => true)
      (by decide)).1

/- ### Claim C4: cooperative cancellation -/

/-- Claim C4: when a cancel request lands at membership-check number `c` of a
running download (`c ≤ total`; the in-flight track, if any, is the one at
position `c - 1`), the worker attempts exactly the first `c` selected tracks -
nothing beyond the in-flight one, and never a mid-track abort - and the final
status is `cancelled`.  The mechanism is the loop-top membership test
(`activeAt`), once per track boundary. -/
theorem c4_cancellation (album_id output_path : String) (inf : AlbumInfo)
    (selected : Option (List String)) (okf : Nat → Bool) (c : Nat)
    (hne : (inf.tracks.filter (keepTrack selected)).length ≠ 0)
    (hc : c ≤ (inf.tracks.filter (keepTrack selected)).length) :
    (download_soundtrack album_id (some inf) selected okf (some c)
        output_path).processed =
      (inf.tracks.filter (keepTrack selected)).take c ∧
    (download_soundtrack album_id (some inf) selected okf (some c)
        output_path).final.status = Status.cancelled ∧
    (download_soundtrack album_id (some inf) selected okf (some c)
        output_path).processed.length ≤ c := by
  have hac : ¬ activeAt (some c) (inf.tracks.filter (keepTrack selected)).length = true := by
    simp [activeAt]
    omega
  refine ⟨?_, ?_, ?_⟩
  · simp only [download_soundtrack]
    rw [if_neg hne, if_neg hac]
    show (dlLoop okf (some c) _ 0 0 _ _).processed = _
    rw [dlLoop_processed_cancel]
    rw [Nat.sub_zero]
  · simp only [download_soundtrack]
    rw [if_neg hne, if_neg hac]
  · simp only [download_soundtrack]
    rw [if_neg hne, if_neg hac]
    show (dlLoop okf (some c) _ 0 0 _ _).processed.length ≤ c
    rw [dlLoop_processed_cancel, Nat.sub_zero]
    exact List.length_take_le c _

/-- Witness for `c4_cancellation`: a two-track album cancelled at check 1 -
only the first (in-flight) track is attempted and the run ends cancelled. -/
theorem c4_cancellation_witness :
    (download_soundtrack "a" (some ⟨"T", [⟨1, "A", "u1"⟩, ⟨2, "B", "u2"⟩]⟩) none
        (fun _ => true) (some 1) "o").processed =
      (([⟨1, "A", "u1"⟩, ⟨2, "B", "u2"⟩] : List Track).filter (keepTrack none)).take 1 ∧
    (download_soundtrack "a" (some ⟨"T", [⟨1, "A", "u1"⟩, ⟨2, "B", "u2"⟩]⟩) none
        (fun _ => true) (some 1) "o").final.status = Status.cancelled ∧
    (download_soundtrack "a" (some ⟨"T", [⟨1, "A", "u1"⟩, ⟨2, "B", "u2"⟩]⟩) none
        (fun _ => true) (some 1) "o").processed.length ≤ 1 :=
  c4_cancellation "a" "o" ⟨"T", [⟨1, "A", "u1"⟩, ⟨2, "B", "u2"⟩]⟩ none
    (fun _ => true) 1 (by decide) (by decide)

/- ### Claim C10: `completed` overwrites `current_track` with the success
count -/

/-- Claim C10: an uncancelled run over a non-empty selection always ends
`completed` with `current_track` overwritten by the number of successful
track downloads; concretely, a 3-track album whose second download fails ends
with `current_track = 2` although the trace showed `current_track = 3` while
downloading, and `2` is less than the 3 reported in `total_tracks`. -/
theorem c10_completed_overwrites_current_track :
    (∀ (album_id output_path : String) (inf : AlbumInfo)
      (selected : Option (List String)) (okf : Nat → Bool),
      (inf.tracks.filter (keepTrack selected)).length ≠ 0 →
      (download_soundtrack album_id (some inf) selected okf none
        output_path).final.status = Status.completed ∧
      (download_soundtrack album_id (some inf) selected okf none
        output_path).final.current_track =
        ((List.range' 0 (inf.tracks.filter (keepTrack selected)).length).filter
          okf).length) ∧
    ((download_soundtrack "d" (some ⟨"D", [⟨1, "A", "u1"⟩, ⟨2, "B", "u2"⟩, ⟨3, "C", "u3"⟩]⟩)
        none (fun j => decide (j ≠ 1)) none "o").final.status = Status.completed ∧
      (download_soundtrack "d" (some ⟨"D", [⟨1, "A", "u1"⟩, ⟨2, "B", "u2"⟩, ⟨3, "C", "u3"⟩]⟩)
        none (fun j => decide (j ≠ 1)) none "o").final.current_track = 2 ∧
      (download_soundtrack "d" (some ⟨"D", [⟨1, "A", "u1"⟩, ⟨2, "B", "u2"⟩, ⟨3, "C", "u3"⟩]⟩)
        none (fun j => decide (j ≠ 1)) none "o").final.total_tracks = 3 ∧
      (∃ x ∈ (download_soundtrack "d" (some ⟨"D", [⟨1, "A", "u1"⟩, ⟨2, "B", "u2"⟩, ⟨3, "C", "u3"⟩]⟩)
          none (fun j => decide (j ≠ 1)) none "o").trace,
        x.status = Status.downloading ∧ x.current_track = 3)) := by
  constructor
  · intro album_id output_path inf selected okf h0
    have hac : activeAt none (inf.tracks.filter (keepTrack selected)).length = true := rfl
    constructor
    · simp only [download_soundtrack]
      rw [if_neg h0, if_pos hac]
    · simp only [download_soundtrack]
      rw [if_neg h0, if_pos hac]
      show (dlLoop okf none _ 0 0 _ _).done = _
      rw [dlLoop_done_none]
      rw [Nat.zero_add]
  · refine ⟨by decide, by decide, by decide, by decide⟩

/-- Witness for the universal part of `c10_completed_overwrites_current_track`. -/
theorem c10_witness :
    (download_soundtrack "d" (some introAlbum) none (fun _ => false) none
      "o").final.status = Status.completed ∧
    (download_soundtrack "d" (some introAlbum) none (fun _ => false) none
      "o").final.current_track =
      ((List.range' 0 (introAlbum.tracks.filter (keepTrack none)).length).filter
        (fun _ => false)).length :=
  c10_completed_overwrites_current_track.1 "d" "o" introAlbum none (fun _ => false)
    (by decide)

/- ### Claim C2 theorems -/

/-- Claim C2 counterexample: a 404 on the first attempt.  The claim says the
fetch raises immediately on the first non-forbidden error status without
consuming further attempts; in the code `raise_for_status()` throws an
`HTTPError`, which IS a `requests.RequestException` and is caught by the
retry loop's `except` clause, so the 404 merely consumes one attempt and the
call SUCCEEDS on the second attempt's 200. -/
theorem c2_counterexample :
    get_with_retry [.status 404, .status 200, .status 200] =
      (FetchResult.success 200, 2) ∧
    (get_with_retry [.status 404, .status 200, .status 200]).1 ≠
      FetchResult.raised := by
  refine ⟨by decide, by decide⟩

/-- Witness for `get_with_retry_spec`: a budget of three attempts facing a
404, then a network error, then a 200 - all failures are retried and the
third attempt's response is returned. -/
theorem get_with_retry_spec_witness :
    get_with_retry [.status 404, .netErr, .status 200] =
      (FetchResult.success 200, 3) :=
  (get_with_retry_spec [.status 404, .netErr, .status 200] (by decide)).2
    2 200 (by decide) (by decide) (by decide)

/- ### Claim C5: session id assignment (`start_download`, src/app.py
1882-1904).

`progress_id = f"download_{int(time.time() * 1000)}"` - the id is a pure
function of the millisecond clock reading.  A request is rejected (HTTP 400)
only when the stripped album id is empty; an accepted request registers the
id in both registries (overwriting any previous entry under the same key) and
spawns the worker. -/

def mkProgressId (ms : Nat) : String :=
  "download_" ++ Nat.repr ms

structure DownloadReq where
  album_id : Option String
  output_path : Option String
  selected_tracks : Option (List String)
deriving DecidableEq

/-- `start_download`, returning the assigned progress id when accepted
(`ms` is `int(time.time() * 1000)` at the moment the route runs). -/
def start_download (req : DownloadReq) (ms : Nat) : Option String :=
  let albumId := pyStrip (req.album_id.getD "")
  if albumId = "" then none
  else some (mkProgressId ms)

theorem mkProgressId_inj {ms1 ms2 : Nat}
    (h : mkProgressId ms1 = mkProgressId ms2) : ms1 = ms2 := by
  unfold mkProgressId at h
  have hdata := congrArg String.data h
  rw [String.data_append, String.data_append] at hdata
  have hrepr : (Nat.repr ms1).data = (Nat.repr ms2).data :=
    List.append_cancel_left hdata
  exact repr_injective (String.ext hrepr)

theorem start_download_id {req : DownloadReq} {ms : Nat} {pid : String}
    (h : start_download req ms = some pid) : pid = mkProgressId ms := by
  unfold start_download at h
  by_cases he : pyStrip (req.album_id.getD "") = ""
  · rw [if_pos he] at h
    cases h
  · rw [if_neg he] at h
    exact (Option.some.inj h).symm

/-- Claim C5 counterexample: two accepted requests - for different albums -
arriving within the same millisecond are assigned the SAME session id, so the
ids of a pair of accepted requests need not be distinct and an id can denote
a second session (whose registry record overwrites the first's). -/
theorem c5_counterexample :
    start_download ⟨some "zelda", none, none⟩ 777 = some "download_777" ∧
    start_download ⟨some "mario", none, none⟩ 777 = some "download_777" := by
  refine ⟨by decide, by decide⟩

/-- Claim C5 amended: the session id is a pure function of the millisecond
clock reading, so two accepted `startDownload` requests receive distinct ids
IF AND ONLY IF their millisecond timestamps differ; same-millisecond requests
share one id, the later registration overwriting the earlier session
record. -/
theorem c5_amended (r1 r2 : DownloadReq) (ms1 ms2 : Nat) (id1 id2 : String)
    (h1 : start_download r1 ms1 = some id1)
    (h2 : start_download r2 ms2 = some id2) :
    id1 = id2 ↔ ms1 = ms2 := by
  rw [start_download_id h1, start_download_id h2]
  constructor
  · exact mkProgressId_inj
  · intro h
    rw [h]

/-- Witness for `c5_amended`. -/
theorem c5_amended_witness :
    ("download_777" : String) = "download_778" ↔ (777 : Nat) = 778 :=
  c5_amended ⟨some "zelda", none, none⟩ ⟨some "mario", none, none⟩ 777 778
    "download_777" "download_778" (by decide) (by decide)

end GST
